import Mathlib

/-!
Verification of the GPAC FLUTE/LCT receiver specification against the
repository's source.

The repository contains the SDL output module (`modules/sdl_out/sdl_out.c`),
the hardware FFmpeg encode filter (`src/filters/hw_ff_enc.c`), and a design
document describing the FLUTE receiver core (LCT header decoding, FDT tables,
ESI-based object reconstruction).  The reconstruction core itself is present
only as that design document, so its operations are modelled here from the
specification's words; the SDL module and the encoder filter are embedded
from their C source.
-/

namespace Flute

/-- Error kinds raised by the receiver core (spec §7). -/
inductive RxError
  | InconsistentSymbol
  | MalformedHeader
  | UnsupportedExtension
  deriving Repr, DecidableEq

/-- Modelled from the spec: the Object Reconstruction Buffer (spec §3, §4.4),
missing from src/ (only the design document describes it).  Keyed by TOI; holds
total length, encoding symbol length, a byte buffer sized to total length
(modelled as a function out of byte positions, with `total_length` bounding the
meaningful domain) and the set of covered byte positions. -/
structure ReconBuffer where
  total_length : Nat
  symbol_length : Nat
  data : Nat → Nat
  covered : Nat → Bool

/-- Modelled from the spec: `open(toi, total_length, symbol_length)` creates a
fresh buffer sized to exactly `total_length`, with nothing covered. -/
def openBuffer (L S : Nat) : ReconBuffer :=
  { total_length := L, symbol_length := S, data := fun _ => 0, covered := fun _ => false }

/-- Write `bytes` into the byte map at offset `off` (positions past the end of
`bytes` are untouched). -/
def writeRange (f : Nat → Nat) (off : Nat) (bytes : List Nat) : Nat → Nat :=
  fun i => if off ≤ i ∧ i < off + bytes.length then bytes.getD (i - off) 0 else f i

/-- Mark positions `[off, off+ext)` as covered (range-set merge). -/
def coverRange (c : Nat → Bool) (off ext : Nat) : Nat → Bool :=
  fun i => if off ≤ i ∧ i < off + ext then true else c i

/-- The bytes currently stored at `[off, off+ext)`. -/
def sliceData (b : ReconBuffer) (off ext : Nat) : List Nat :=
  (List.range ext).map (fun i => b.data (off + i))

/-- Whether every position in `[off, off+ext)` is already covered. -/
def sliceCovered (b : ReconBuffer) (off ext : Nat) : Bool :=
  (List.range ext).all (fun i => b.covered (off + i))

/-- Modelled from the spec: `place_symbol(buffer, esi, symbol_bytes)`
(spec §4.4), missing from src/.  Destination byte offset is
`esi * symbol_length`; the written extent is clamped to `total_length` for the
final, possibly short, symbol.  Re-delivery of an already covered region with
identical bytes is a no-op; with different bytes it raises
`InconsistentSymbol` and the first-seen bytes win. -/
def place_symbol (b : ReconBuffer) (esi : Nat) (bytes : List Nat) :
    Except RxError ReconBuffer :=
  let off := esi * b.symbol_length
  let ext := min bytes.length (b.total_length - off)
  let nb := bytes.take ext
  if sliceCovered b off ext then
    if sliceData b off ext = nb then .ok b else .error .InconsistentSymbol
  else
    .ok { b with data := writeRange b.data off nb,
                 covered := coverRange b.covered off ext }

/-- Modelled from the spec: dispatcher-level delivery — an `InconsistentSymbol`
error is logged and processing continues with the buffer unchanged (spec §4.4,
§7). -/
def deliverSymbol (b : ReconBuffer) (esi : Nat) (bytes : List Nat) :
    ReconBuffer × Option RxError :=
  match place_symbol b esi bytes with
  | .ok b2 => (b2, none)
  | .error e => (b, some e)

/-- The buffer kept after a delivery (first component of `deliverSymbol`). -/
def placeOk (b : ReconBuffer) (esi : Nat) (bytes : List Nat) : ReconBuffer :=
  (deliverSymbol b esi bytes).1

/-- Modelled from the spec: `is_complete(buffer)` — the object is complete
exactly when the covered ranges cover `[0, total_length)` (spec §3, §4.4). -/
def is_complete (b : ReconBuffer) : Bool :=
  (List.range b.total_length).all b.covered

/-- Modelled from the spec: `finalize(buffer)` — the reconstructed owned byte
sequence (spec §4.4). -/
def finalize (b : ReconBuffer) : List Nat :=
  (List.range b.total_length).map b.data

/-- The sender-side symbol with index `esi`: the `esi`-th chunk of `S` bytes of
the original object (the final chunk may be short). -/
def symbolOf (original : List Nat) (S esi : Nat) : List Nat :=
  (original.drop (esi * S)).take S

/-- Number of encoding symbols for an object: `ceil(L / S)`. -/
def numSymbols (L S : Nat) : Nat := (L + S - 1) / S

/-- Deliver the symbols of `original` for the given list of ESIs, in order. -/
def deliverList (b : ReconBuffer) (original : List Nat) (esis : List Nat) :
    ReconBuffer :=
  esis.foldl (fun b esi => placeOk b esi (symbolOf original b.symbol_length esi)) b

/-- Repeated re-delivery of the same symbol, n times. -/
def deliverRepeat (b : ReconBuffer) (esi : Nat) (bytes : List Nat) : Nat → ReconBuffer
  | 0 => b
  | n + 1 => (deliverSymbol (deliverRepeat b esi bytes n) esi bytes).1

/-- Reconstruction invariant: after the symbols selected by `f` have been
delivered, position `i` is covered exactly when its covering symbol `i / S`
has been delivered, and then holds the original object's byte. -/
def Inv (L S : Nat) (original : List Nat) (f : Nat → Bool) (b : ReconBuffer) : Prop :=
  b.total_length = L ∧ b.symbol_length = S ∧
  (∀ i, b.covered i = (decide (i < L) && f (i / S))) ∧
  (∀ i, b.data i = if i < L ∧ f (i / S) = true then original.getD i 0 else 0)

/-- Modelled from the spec: a decoded LCT extension header (spec §3, §4.2),
missing from src/.  `EXT_FDT` carries an FDT instance identifier; `EXT_FTI`
carries the exact total transfer length in bytes, the encoding symbol length
and the maximum source block length; unknown extensions are preserved as raw
type plus data. -/
inductive ExtHeader
  | fdt (instance_id : Nat)
  | fti (transfer_length : Nat) (symbol_length : Nat) (max_source_block : Nat)
  | unknown (het : Nat) (raw : List Nat)
  deriving Repr, DecidableEq

/-- Modelled from the spec: a decoded LCT packet (spec §3), missing from
src/. -/
structure LCTPacket where
  version : Nat
  codepoint : Nat
  tsi : Nat
  toi : Nat
  exts : List ExtHeader
  payload : List Nat
  deriving Repr, DecidableEq

/-- Big-endian integer value of a byte list. -/
def be (bytes : List Nat) : Nat :=
  bytes.foldl (fun a b => a * 256 + b) 0

/-- Modelled from the spec: the structural walk of the extension header area
(spec §4.1), missing from src/.  RFC 5651 shape: an extension whose type code
`HET ≥ 128` occupies a fixed 4 bytes; otherwise the next byte `HEL` gives its
length in 32-bit words (`HEL = 0` is invalid).  Each extension — known or
unknown — is delimited purely by its declared length; the walk fails only when
an extension overruns the area.  Returns the list of (type, content-bytes)
slices, or `none` when the list is structurally inconsistent. -/
def splitExts : List Nat → Option (List (Nat × List Nat))
  | [] => some []
  | het :: rest =>
    if 128 ≤ het then
      if rest.length < 3 then none
      else
        match splitExts (rest.drop 3) with
        | some es => some ((het, rest.take 3) :: es)
        | none => none
    else
      if h0 : rest.getD 0 0 = 0 then none
      else if hov : rest.length + 1 < 4 * rest.getD 0 0 then none
      else
        match splitExts ((het :: rest).drop (4 * rest.getD 0 0)) with
        | some es =>
          some ((het, ((het :: rest).drop 2).take (4 * rest.getD 0 0 - 2)) :: es)
        | none => none
termination_by area => area.length
decreasing_by
  · simp only [List.length_drop, List.length_cons]
    omega
  · simp only [List.length_drop, List.length_cons]
    omega

/-- EXT_FDT type code (FLUTE/ALC convention). -/
def EXT_FDT : Nat := 192

/-- EXT_FTI type code (FLUTE/ALC convention). -/
def EXT_FTI : Nat := 64

/-- Modelled from the spec: the Extension Header Interpreter for one delimited
extension (spec §4.2), missing from src/.  Decodes the known layouts (EXT_FDT,
EXT_FTI) and records unknown types as `Unknown{type, raw_bytes}`.  EXT_FTI's
transfer length is the full-width 48-bit exact byte count taken from its first
six content bytes.  Fails with `UnsupportedExtension` only when a known type's
internal layout has the wrong size (EXT_FTI requires `HEL = 4`, i.e. 14 content
bytes); unknown types are never an error. -/
def interpretExt (te : Nat × List Nat) : Except RxError ExtHeader :=
  if te.1 = EXT_FDT then .ok (ExtHeader.fdt (be te.2))
  else if te.1 = EXT_FTI then
    if te.2.length ≠ 14 then .error .UnsupportedExtension
    else .ok (ExtHeader.fti (be (te.2.take 6))
      (be ((te.2.drop 8).take 2)) (be ((te.2.drop 10).take 4)))
  else .ok (ExtHeader.unknown te.1 te.2)

/-- Interpret every delimited extension in order. -/
def interpretExts : List (Nat × List Nat) → Except RxError (List ExtHeader)
  | [] => .ok []
  | te :: tes =>
    match interpretExt te with
    | .error e => .error e
    | .ok e =>
      match interpretExts tes with
      | .error er => .error er
      | .ok es => .ok (e :: es)

/-- Modelled from the spec: the structural-consistency predicate of the LCT
Header Decoder (spec §4.1), missing from src/: minimum header length, protocol
version recognized, reserved bits zero, declared header length (in 32-bit
words) within the packet, and the extension header list fitting inside the
declared header length. -/
def structurallyValid (pkt : List Nat) : Bool :=
  decide (12 ≤ pkt.length) && decide (pkt.getD 0 0 = 1)
    && decide (pkt.getD 1 0 % 4 = 0) && decide (3 ≤ pkt.getD 2 0)
    && decide (4 * pkt.getD 2 0 ≤ pkt.length)
    && (splitExts ((pkt.drop 12).take (4 * pkt.getD 2 0 - 12))).isSome

/-- The structural-consistency conditions of the LCT Header Decoder, as a
single proposition. -/
def StructOk (pkt : List Nat) : Prop :=
  12 ≤ pkt.length ∧ pkt.getD 0 0 = 1 ∧ pkt.getD 1 0 % 4 = 0
    ∧ 3 ≤ pkt.getD 2 0 ∧ 4 * pkt.getD 2 0 ≤ pkt.length
    ∧ (splitExts ((pkt.drop 12).take (4 * pkt.getD 2 0 - 12))).isSome = true

/-- Modelled from the spec: the LCT Header Decoder (spec §4.1, §6), missing
from src/.  Pure parse of raw packet bytes: byte 0 protocol version (must be
1), byte 1 flags (two low bits reserved, must be 0), byte 2 header length in
32-bit words (at least 3, and the declared header must fit in the packet),
byte 3 codepoint, bytes 4..7 TSI, bytes 8..11 TOI, then the extension header
area up to the declared header length, then the payload.  Structural
inconsistencies yield `MalformedHeader`; a known extension with a bad internal
layout yields `UnsupportedExtension`. -/
def lct_decode (pkt : List Nat) : Except RxError LCTPacket :=
  if pkt.length < 12 then .error .MalformedHeader
  else if pkt.getD 0 0 ≠ 1 then .error .MalformedHeader
  else if pkt.getD 1 0 % 4 ≠ 0 then .error .MalformedHeader
  else if pkt.getD 2 0 < 3 then .error .MalformedHeader
  else if pkt.length < 4 * pkt.getD 2 0 then .error .MalformedHeader
  else
    match splitExts ((pkt.drop 12).take (4 * pkt.getD 2 0 - 12)) with
    | none => .error .MalformedHeader
    | some raws =>
      match interpretExts raws with
      | .error e => .error e
      | .ok es =>
        .ok { version := 1, codepoint := pkt.getD 3 0,
              tsi := be ((pkt.drop 4).take 4), toi := be ((pkt.drop 8).take 4),
              exts := es, payload := pkt.drop (4 * pkt.getD 2 0) }

/-- First EXT_FTI transfer length among the decoded extensions, if any. -/
def extTransferLength : List ExtHeader → Option Nat
  | [] => none
  | ExtHeader.fti tl _ _ :: _ => some tl
  | _ :: rest => extTransferLength rest

/-- Modelled from the spec: total-length resolution order — the exact EXT_FTI
transfer length when present, else the FDT File Entry content length (spec
§4.2, §9). -/
def resolveLength (exts : List ExtHeader) (fdtLen : Option Nat) : Option Nat :=
  match extTransferLength exts with
  | some tl => some tl
  | none => fdtLen

/-- Modelled from the spec: the per-TOI reconstruction state machine
(spec §4.5) `PendingMetadata → Assembling → Complete | TimedOut`, missing from
src/; `Complete` and `TimedOut` are terminal and hold no buffer (all buffers
freed). -/
inductive TOIState
  | assembling (buf : ReconBuffer) (lastActivity : Nat)
  | complete
  | timedOut

/-- Events seen by a per-TOI state machine: a symbol arriving at time `t`, or
an inactivity check at time `now`. -/
inductive RxEvent
  | symbol (esi : Nat) (bytes : List Nat) (t : Nat)
  | checkTimeout (now : Nat)

/-- Modelled from the spec: one step of the per-TOI state machine (spec §4.4,
§4.5).  Returns the next state and whether the completed object was emitted
downstream at this step.  A partial object whose last-activity timestamp
exceeds the inactivity bound transitions to the terminal `TimedOut` state,
dropping its buffer. -/
def stepTOI (bound : Nat) : TOIState → RxEvent → TOIState × Bool
  | TOIState.assembling buf _, RxEvent.symbol esi bytes t =>
    let buf2 := placeOk buf esi bytes
    if is_complete buf2 then (TOIState.complete, true)
    else (TOIState.assembling buf2 t, false)
  | TOIState.assembling buf la, RxEvent.checkTimeout now =>
    if la + bound < now ∧ is_complete buf = false then (TOIState.timedOut, false)
    else (TOIState.assembling buf la, false)
  | TOIState.complete, _ => (TOIState.complete, false)
  | TOIState.timedOut, _ => (TOIState.timedOut, false)

/-- Run the per-TOI machine over an event list; returns the final state and
the number of emissions to the downstream consumer. -/
def runTOI (bound : Nat) : TOIState → List RxEvent → TOIState × Nat
  | s, [] => (s, 0)
  | s, ev :: evs =>
    let r := stepTOI bound s ev
    let rest := runTOI bound r.1 evs
    (rest.1, (if r.2 then 1 else 0) + rest.2)

end Flute

namespace SDLOut

/-- The module's shared-subsystem state: the file-scope statics `is_init` and
`num_users` of src/modules/sdl_out/sdl_out.c (lines 36-37).  `num_users` is a
C `u32`, so arithmetic on it is modulo `2^32`. -/
structure SDLState where
  is_init : Bool
  num_users : Nat
  deriving Repr, DecidableEq

/-- The state at module load: `is_init = GF_FALSE`, `num_users = 0`. -/
def initialState : SDLState := { is_init := false, num_users := 0 }

/-- Result of one `SDLOUT_InitSDL` call: the new state, the returned `Bool`,
and whether `SDL_Init(0)` was invoked. -/
structure InitResult where
  state : SDLState
  result : Bool
  calledSDLInit : Bool
  deriving Repr, DecidableEq

/-- Embedded from `SDLOUT_InitSDL` (sdl_out.c lines 39-49).  `ok` is the
outcome of the external `SDL_Init(0)` call (`true` iff it returns `≥ 0`),
consulted only when the function actually invokes it. -/
def SDLOUT_InitSDL (s : SDLState) (ok : Bool) : InitResult :=
  if s.is_init then
    { state := { s with num_users := (s.num_users + 1) % 2 ^ 32 }, result := true,
      calledSDLInit := false }
  else if !ok then { state := s, result := false, calledSDLInit := true }
  else
    { state := { is_init := true, num_users := (s.num_users + 1) % 2 ^ 32 },
      result := true, calledSDLInit := true }

/-- Result of one `SDLOUT_CloseSDL` call: the new state and whether
`SDL_Quit()` was invoked. -/
structure CloseResult where
  state : SDLState
  calledSDLQuit : Bool
  deriving Repr, DecidableEq

/-- Embedded from `SDLOUT_CloseSDL` (sdl_out.c lines 51-58): no-op when
`is_init` is false; otherwise decrements `num_users` (u32 wrap-around
semantics for the C `num_users--`) and calls `SDL_Quit()` exactly when the
count reaches zero.  The debug-build `assert(num_users)` is outside the model;
the claims only concern sequences where the count stays positive at each
close.  Note the function never resets `is_init`. -/
def SDLOUT_CloseSDL (s : SDLState) : CloseResult :=
  if !s.is_init then { state := s, calledSDLQuit := false }
  else
    { state := { s with num_users := (s.num_users + (2 ^ 32 - 1)) % 2 ^ 32 },
      calledSDLQuit := ((s.num_users + (2 ^ 32 - 1)) % 2 ^ 32 == 0) }

/-- A call to the module's shared-subsystem API; `ok` is the `SDL_Init`
outcome oracle for an `SDLOUT_InitSDL` call. -/
inductive SDLCall
  | start (ok : Bool)
  | close
  deriving Repr, DecidableEq

/-- Run a sequence of calls; returns the final state and the number of
`SDL_Quit()` invocations. -/
def runSDL (s : SDLState) : List SDLCall → SDLState × Nat
  | [] => (s, 0)
  | SDLCall.start ok :: cs => runSDL (SDLOUT_InitSDL s ok).state cs
  | SDLCall.close :: cs =>
    let r := SDLOUT_CloseSDL s
    let rest := runSDL r.state cs
    (rest.1, (if r.calledSDLQuit then 1 else 0) + rest.2)

/-- Number of `SDLOUT_InitSDL` calls in a call list. -/
def countInits (calls : List SDLCall) : Nat :=
  calls.countP (fun c => match c with | SDLCall.start _ => true | _ => false)

/-- Number of `SDLOUT_CloseSDL` calls in a call list. -/
def countCloses (calls : List SDLCall) : Nat :=
  calls.countP (fun c => match c with | SDLCall.close => true | _ => false)

/-- Whether a call sequence keeps every close paired with an earlier init,
starting from a running user count `n`: the count never goes below zero. -/
def closesLeInits : List SDLCall → Nat → Bool
  | [], _ => true
  | SDLCall.start _ :: cs, n => closesLeInits cs (n + 1)
  | SDLCall.close :: cs, n => if n = 0 then false else closesLeInits cs (n - 1)

end SDLOut

namespace HWEnc

/-- GPAC error codes returned along the modelled paths of
`hw_ffenc_process`. -/
inductive GFErr
  | gfOk
  | gfEos
  | gfOutOfMem
  | gfNotSupported
  deriving Repr, DecidableEq

/-- Where `hw_ffenc_process` ends up: an early return with an error code, or
the `while (ret >= 0)` guard at line 391 with the value `ret` holds there
(`none` = the variable has never been assigned). -/
inductive ProcOutcome
  | earlyReturn (e : GFErr)
  | reachedLoop (retAtGuard : Option Int)
  deriving Repr, DecidableEq

/-- Embedded from `hw_ffenc_process` (src/src/filters/hw_ff_enc.c lines
319-391): the control flow from function entry to the receive-loop guard.
`ret` is declared at line 325 with no initializer — modelled as `Option Int`
starting at `none` — and no statement on any path to line 391 assigns it.
The booleans are the outcomes of the external calls along the path
(packet available, EOS, packet data non-null, `av_frame_alloc`,
`av_frame_get_buffer`, `av_hwframe_transfer_data`, `avcodec_send_frame`). -/
def hw_ffenc_process_to_guard (encoder_ready pck_avail eos data_ok sw_alloc_ok
    buf_ok transfer_ok send_ok : Bool) : ProcOutcome :=
  let ret : Option Int := none
  if !encoder_ready then .earlyReturn .gfOk
  else if !pck_avail then
    (if eos then .earlyReturn .gfEos else .earlyReturn .gfOk)
  else if !data_ok then .earlyReturn .gfOk
  else if !sw_alloc_ok then .earlyReturn .gfOutOfMem
  else if !buf_ok then .earlyReturn .gfNotSupported
  else if !transfer_ok then .earlyReturn .gfNotSupported
  else if !send_ok then .earlyReturn .gfNotSupported
  else .reachedLoop ret

/-- Embedded from the receive loop (hw_ff_enc.c lines 391-426), with the
uninitialized first read of `ret` resolved to an arbitrary junk value and the
successive `avcodec_receive_packet` outcomes supplied as an oracle list
(`none` = EAGAIN/EOF/negative error → break; `some pkt` = a packet, return 0).
Returns the packets sent downstream. -/
def receive_loop (junk : Int) : List (Option (List Nat)) → List (List Nat)
  | [] => []
  | r :: rs =>
    if junk < 0 then []
    else
      match r with
      | none => []
      | some pkt => pkt :: receive_loop 0 rs

end HWEnc

namespace Flute

lemma getD_take {l : List Nat} {n m : Nat} (h : m < n) :
    (l.take n).getD m 0 = l.getD m 0 := by
  simp [List.getD_eq_getElem?_getD, List.getElem?_take, h]

lemma map_range_getD {l : List Nat} {n : Nat} (h : l.length = n) :
    (List.range n).map (fun i => l.getD i 0) = l := by
  apply List.ext_getElem
  · simp [h]
  · intro i h1 h2
    simp only [List.getElem_map, List.getElem_range]
    exact List.getD_eq_getElem l 0 h2

lemma sliceCovered_true_iff {b : ReconBuffer} {off ext : Nat} :
    sliceCovered b off ext = true ↔ ∀ i < ext, b.covered (off + i) = true := by
  simp [sliceCovered, List.all_eq_true]

lemma sliceCovered_false {b : ReconBuffer} {off ext : Nat} (h : 0 < ext)
    (hc : b.covered off = false) : sliceCovered b off ext = false := by
  rw [Bool.eq_false_iff]
  intro hcontra
  have := sliceCovered_true_iff.mp hcontra 0 h
  simp [hc] at this

lemma deliverSymbol_not_covered {b : ReconBuffer} {esi : Nat} {bytes : List Nat}
    (h : sliceCovered b (esi * b.symbol_length)
      (min bytes.length (b.total_length - esi * b.symbol_length)) = false) :
    deliverSymbol b esi bytes =
      ({ b with
          data := writeRange b.data (esi * b.symbol_length)
            (bytes.take (min bytes.length (b.total_length - esi * b.symbol_length))),
          covered := coverRange b.covered (esi * b.symbol_length)
            (min bytes.length (b.total_length - esi * b.symbol_length)) }, none) := by
  simp [deliverSymbol, place_symbol, h]

lemma deliverSymbol_covered_eq {b : ReconBuffer} {esi : Nat} {bytes : List Nat}
    (h1 : sliceCovered b (esi * b.symbol_length)
      (min bytes.length (b.total_length - esi * b.symbol_length)) = true)
    (h2 : sliceData b (esi * b.symbol_length)
        (min bytes.length (b.total_length - esi * b.symbol_length))
      = bytes.take (min bytes.length (b.total_length - esi * b.symbol_length))) :
    deliverSymbol b esi bytes = (b, none) := by
  simp [deliverSymbol, place_symbol, h1, h2]

lemma deliverSymbol_covered_ne {b : ReconBuffer} {esi : Nat} {bytes : List Nat}
    (h1 : sliceCovered b (esi * b.symbol_length)
      (min bytes.length (b.total_length - esi * b.symbol_length)) = true)
    (h2 : sliceData b (esi * b.symbol_length)
        (min bytes.length (b.total_length - esi * b.symbol_length))
      ≠ bytes.take (min bytes.length (b.total_length - esi * b.symbol_length))) :
    deliverSymbol b esi bytes = (b, some .InconsistentSymbol) := by
  simp [deliverSymbol, place_symbol, h1, h2]

/-- After a successful delivery, the symbol's (clamped) region is covered and
holds exactly the delivered bytes; the buffer geometry is unchanged. -/
lemma deliver_ok_state {b b' : ReconBuffer} {esi : Nat} {bytes : List Nat}
    (h : deliverSymbol b esi bytes = (b', none)) :
    b'.total_length = b.total_length ∧ b'.symbol_length = b.symbol_length ∧
    sliceCovered b' (esi * b.symbol_length)
      (min bytes.length (b.total_length - esi * b.symbol_length)) = true ∧
    sliceData b' (esi * b.symbol_length)
        (min bytes.length (b.total_length - esi * b.symbol_length))
      = bytes.take (min bytes.length (b.total_length - esi * b.symbol_length)) := by
  by_cases h1 : sliceCovered b (esi * b.symbol_length)
      (min bytes.length (b.total_length - esi * b.symbol_length)) = true
  · by_cases h2 : sliceData b (esi * b.symbol_length)
        (min bytes.length (b.total_length - esi * b.symbol_length))
      = bytes.take (min bytes.length (b.total_length - esi * b.symbol_length))
    · have := deliverSymbol_covered_eq h1 h2
      rw [this] at h
      obtain ⟨rfl, -⟩ := Prod.mk.injEq .. ▸ h
      exact ⟨rfl, rfl, h1, h2⟩
    · have := deliverSymbol_covered_ne h1 h2
      rw [this] at h
      simp at h
  · rw [Bool.not_eq_true] at h1
    rw [deliverSymbol_not_covered h1] at h
    obtain ⟨rfl, -⟩ := Prod.mk.injEq .. ▸ h
    refine ⟨rfl, rfl, ?_, ?_⟩
    · rw [sliceCovered_true_iff]
      intro i hi
      simp only [coverRange]
      rw [if_pos ⟨Nat.le_add_right _ _, Nat.add_lt_add_left hi _⟩]
    · set off := esi * b.symbol_length
      set ext := min bytes.length (b.total_length - off) with hext
      have hlen : (bytes.take ext).length = ext := by
        rw [List.length_take]
        exact Nat.min_eq_left (Nat.min_le_left _ _)
      rw [sliceData]
      have : ∀ i ∈ List.range ext,
          writeRange b.data off (bytes.take ext) (off + i)
            = (bytes.take ext).getD i 0 := by
        intro i hi
        rw [List.mem_range] at hi
        simp only [writeRange, hlen]
        rw [if_pos ⟨Nat.le_add_right _ _, Nat.add_lt_add_left hi _⟩]
        simp
      rw [List.map_congr_left this]
      exact map_range_getD hlen

/-- The slice of an empty coverage check is trivially covered. -/
lemma sliceCovered_zero {b : ReconBuffer} {off : Nat} :
    sliceCovered b off 0 = true := by
  simp [sliceCovered]

lemma sliceData_zero {b : ReconBuffer} {off : Nat} :
    sliceData b off 0 = [] := by
  simp [sliceData]

lemma length_take_ext {bytes : List Nat} {m : Nat} :
    (bytes.take (min bytes.length m)).length = min bytes.length m := by
  rw [List.length_take]
  exact Nat.min_eq_left (Nat.min_le_left _ _)

/-- Placement on a fresh buffer: the written/covered region is exactly
`[esi*S, esi*S + ext)` with `ext = min bytes.length (L - esi*S)` (the clamp to
`total_length`), holding exactly the delivered bytes; nothing outside that
region is touched. -/
lemma placeOk_openBuffer (L S esi : Nat) (bytes : List Nat) (i : Nat) :
    ((placeOk (openBuffer L S) esi bytes).covered i
       = decide (esi * S ≤ i ∧ i < esi * S + min bytes.length (L - esi * S)))
    ∧ ((placeOk (openBuffer L S) esi bytes).data i
       = if esi * S ≤ i ∧ i < esi * S + min bytes.length (L - esi * S)
         then bytes.getD (i - esi * S) 0 else 0) := by
  rcases Nat.eq_zero_or_pos (min bytes.length (L - esi * S)) with h0 | hpos
  · have h1 : sliceCovered (openBuffer L S) (esi * S) (min bytes.length (L - esi * S))
        = true := by rw [h0]; exact sliceCovered_zero
    have h2 : sliceData (openBuffer L S) (esi * S) (min bytes.length (L - esi * S))
        = bytes.take (min bytes.length (L - esi * S)) := by
      rw [h0]; simp [sliceData]
    have hds : deliverSymbol (openBuffer L S) esi bytes = (openBuffer L S, none) :=
      deliverSymbol_covered_eq h1 h2
    have hni : ¬ (esi * S ≤ i ∧ i < esi * S + min bytes.length (L - esi * S)) := by
      rw [h0]; omega
    simp only [placeOk, hds]
    simp [openBuffer, hni]
  · have hcov0 : (openBuffer L S).covered (esi * S) = false := rfl
    have h1 : sliceCovered (openBuffer L S) (esi * S) (min bytes.length (L - esi * S))
        = false := sliceCovered_false hpos hcov0
    have hds := @deliverSymbol_not_covered (openBuffer L S) esi bytes h1
    simp only [placeOk, hds]
    constructor
    · simp only [coverRange, openBuffer]
      by_cases hi : esi * S ≤ i ∧ i < esi * S + min bytes.length (L - esi * S)
      · rw [if_pos hi]; exact (decide_eq_true hi).symm
      · rw [if_neg hi]; exact (decide_eq_false hi).symm
    · simp only [writeRange, openBuffer, length_take_ext]
      by_cases hi : esi * S ≤ i ∧ i < esi * S + min bytes.length (L - esi * S)
      · rw [if_pos hi, if_pos hi]
        exact getD_take (by omega)
      · rw [if_neg hi, if_neg hi]

/-- A successful delivery reaches a fixpoint: re-delivering the same bytes at
the same ESI returns the same buffer with no error. -/
lemma deliver_ok_fixpoint {b b' : ReconBuffer} {esi : Nat} {bytes : List Nat}
    (h : deliverSymbol b esi bytes = (b', none)) :
    deliverSymbol b' esi bytes = (b', none) := by
  obtain ⟨hL, hS, hcov, hdata⟩ := deliver_ok_state h
  apply deliverSymbol_covered_eq
  · rw [hS, hL]; exact hcov
  · rw [hS, hL]; exact hdata

lemma getD_drop {l : List Nat} {m k : Nat} :
    (l.drop m).getD k 0 = l.getD (m + k) 0 := by
  simp [List.getD_eq_getElem?_getD, List.getElem?_drop]

lemma symbolOf_length {original : List Nat} {S esi : Nat} :
    (symbolOf original S esi).length = min S (original.length - esi * S) := by
  simp [symbolOf]

lemma symbolOf_getD {original : List Nat} {S esi k : Nat} (hk : k < S) :
    (symbolOf original S esi).getD k 0 = original.getD (esi * S + k) 0 := by
  rw [symbolOf, getD_take hk, getD_drop]

lemma lt_numSymbols_iff {L S : Nat} (hS : 0 < S) (esi : Nat) :
    esi < numSymbols L S ↔ esi * S < L := by
  rw [numSymbols, Nat.lt_iff_add_one_le, Nat.le_div_iff_mul_le hS]
  have h3 : (esi + 1) * S = esi * S + S := Nat.succ_mul esi S
  omega

/-- The byte positions written by symbol `esi` are exactly the positions below
`L` whose covering symbol index is `esi`. -/
lemma region_iff {L S esi i : Nat} (hS : 0 < S) (hoff : esi * S < L) :
    (esi * S ≤ i ∧ i < esi * S + min S (L - esi * S)) ↔ (i < L ∧ i / S = esi) := by
  have h3 : (esi + 1) * S = esi * S + S := Nat.succ_mul esi S
  constructor
  · rintro ⟨h1, h2⟩
    refine ⟨by omega, ?_⟩
    exact Nat.div_eq_of_lt_le h1 (by omega)
  · rintro ⟨h1, h2⟩
    have hle : i / S * S ≤ i := Nat.div_mul_le_self i S
    have hmod : i % S < S := Nat.mod_lt _ hS
    have hdm : S * (i / S) + i % S = i := Nat.div_add_mod i S
    rw [h2] at hle hdm
    have hc : S * esi = esi * S := Nat.mul_comm S esi
    omega

lemma Inv_congr {L S : Nat} {original : List Nat} {f g : Nat → Bool}
    {b : ReconBuffer} (hfg : ∀ e, f e = g e) (h : Inv L S original f b) :
    Inv L S original g b := by
  obtain ⟨h1, h2, h3, h4⟩ := h
  refine ⟨h1, h2, fun i => ?_, fun i => ?_⟩
  · rw [h3, hfg]
  · rw [h4]
    simp only [hfg]

lemma Inv_open (L S : Nat) (original : List Nat) :
    Inv L S original (fun _ => false) (openBuffer L S) := by
  refine ⟨rfl, rfl, fun i => ?_, fun i => ?_⟩ <;> simp [openBuffer]

/-- Delivering symbol `esi` preserves the reconstruction invariant, adding
`esi` to the delivered set (a duplicate delivery is a no-op). -/
lemma Inv_step {L S : Nat} {original : List Nat} {f : Nat → Bool} {b : ReconBuffer}
    (hS : 0 < S) (hlen : original.length = L)
    (hinv : Inv L S original f b) {esi : Nat} (hesi : esi * S < L) :
    Inv L S original (fun e => (e == esi) || f e)
      (placeOk b esi (symbolOf original S esi)) := by
  obtain ⟨hbL, hbS, hcov, hdata⟩ := hinv
  have hsl : (symbolOf original S esi).length = min S (L - esi * S) := by
    rw [symbolOf_length, hlen]
  have hpos : 0 < min S (L - esi * S) := by omega
  have hE : min (symbolOf original S esi).length (b.total_length - esi * b.symbol_length)
      = min S (L - esi * S) := by
    rw [hsl, hbL, hbS]
    omega
  have hnb : (symbolOf original S esi).take (min S (L - esi * S))
      = symbolOf original S esi := by
    conv_lhs => rw [← hsl]
    exact List.take_length _
  have hdiv0 : esi * S / S = esi := Nat.mul_div_cancel esi hS
  have hdivk : ∀ k, k < min S (L - esi * S) → (esi * S + k) / S = esi := by
    intro k hk
    have h3 : (esi + 1) * S = esi * S + S := Nat.succ_mul esi S
    exact Nat.div_eq_of_lt_le (Nat.le_add_right _ _) (by omega)
  by_cases hf : f esi = true
  · -- the region is already covered with identical bytes: delivery is a no-op
    have h1 : sliceCovered b (esi * b.symbol_length)
        (min (symbolOf original S esi).length (b.total_length - esi * b.symbol_length))
        = true := by
      rw [hE, hbS, sliceCovered_true_iff]
      intro k hk
      rw [hcov, hdivk k hk, hf]
      have hkL : esi * S + k < L := by omega
      simp [hkL]
    have h2 : sliceData b (esi * b.symbol_length)
          (min (symbolOf original S esi).length (b.total_length - esi * b.symbol_length))
        = (symbolOf original S esi).take
            (min (symbolOf original S esi).length
              (b.total_length - esi * b.symbol_length)) := by
      rw [hE, hbS, hnb]
      simp only [sliceData]
      have hptw : ∀ k ∈ List.range (min S (L - esi * S)),
          b.data (esi * S + k) = (symbolOf original S esi).getD k 0 := by
        intro k hk
        rw [List.mem_range] at hk
        rw [hdata, symbolOf_getD (by omega), hdivk k hk]
        have hkL : esi * S + k < L := by omega
        simp [hkL, hf]
      rw [List.map_congr_left hptw]
      exact map_range_getD (by rw [hsl])
    have hds := deliverSymbol_covered_eq h1 h2
    have hpo : placeOk b esi (symbolOf original S esi) = b := by
      simp only [placeOk, hds]
    rw [hpo]
    refine ⟨hbL, hbS, fun i => ?_, fun i => ?_⟩
    · rw [hcov]
      have hb : ((i / S == esi) || f (i / S)) = f (i / S) := by
        by_cases hie : i / S = esi
        · simp [hie, hf]
        · simp [hie]
      simp [hb]
    · rw [hdata]
      have hb : ((i / S == esi) || f (i / S)) = f (i / S) := by
        by_cases hie : i / S = esi
        · simp [hie, hf]
        · simp [hie]
      simp [hb]
  · -- fresh region: the symbol is written and its range merged into coverage
    rw [Bool.not_eq_true] at hf
    have hcoff : b.covered (esi * S) = false := by
      rw [hcov, hdiv0, hf]
      simp
    have h1 : sliceCovered b (esi * b.symbol_length)
        (min (symbolOf original S esi).length (b.total_length - esi * b.symbol_length))
        = false := by
      rw [hE, hbS]
      exact sliceCovered_false hpos hcoff
    have hds := @deliverSymbol_not_covered b esi (symbolOf original S esi) h1
    have hpo : placeOk b esi (symbolOf original S esi) =
        { b with
          data := writeRange b.data (esi * b.symbol_length)
            ((symbolOf original S esi).take
              (min (symbolOf original S esi).length
                (b.total_length - esi * b.symbol_length))),
          covered := coverRange b.covered (esi * b.symbol_length)
            (min (symbolOf original S esi).length
              (b.total_length - esi * b.symbol_length)) } := by
      simp only [placeOk, hds]
    rw [hpo]
    refine ⟨hbL, hbS, fun i => ?_, fun i => ?_⟩
    · dsimp only
      rw [hE, hbS]
      simp only [coverRange]
      by_cases hreg : esi * S ≤ i ∧ i < esi * S + min S (L - esi * S)
      · rw [if_pos hreg]
        obtain ⟨hiL, hie⟩ := (region_iff hS hesi).mp hreg
        rw [hie]
        simp [hiL]
      · rw [if_neg hreg, hcov]
        by_cases hiL : i < L
        · have hie : i / S ≠ esi := fun hc => hreg ((region_iff hS hesi).mpr ⟨hiL, hc⟩)
          rw [beq_eq_false_iff_ne.mpr hie, Bool.false_or]
        · simp [hiL]
    · dsimp only
      rw [hE, hbS, hnb]
      simp only [writeRange]
      rw [hsl]
      by_cases hreg : esi * S ≤ i ∧ i < esi * S + min S (L - esi * S)
      · rw [if_pos hreg]
        obtain ⟨hiL, hie⟩ := (region_iff hS hesi).mp hreg
        rw [symbolOf_getD (by omega)]
        have hix : esi * S + (i - esi * S) = i := by omega
        rw [hix, hie]
        simp [hiL]
      · rw [if_neg hreg, hdata]
        by_cases hiL : i < L
        · have hie : i / S ≠ esi := fun hc => hreg ((region_iff hS hesi).mpr ⟨hiL, hc⟩)
          simp only [beq_eq_false_iff_ne.mpr hie, Bool.false_or]
        · simp [hiL]

/-- Folding a list of deliveries accumulates the delivered ESI set. -/
lemma Inv_deliverList {L S : Nat} {original : List Nat}
    (hS : 0 < S) (hlen : original.length = L) :
    ∀ (esis : List Nat) (f : Nat → Bool) (b : ReconBuffer),
      Inv L S original f b → (∀ e ∈ esis, e * S < L) →
      Inv L S original (fun e => decide (e ∈ esis) || f e)
        (deliverList b original esis) := by
  intro esis
  induction esis with
  | nil =>
    intro f b hinv _
    refine Inv_congr (fun e => ?_) hinv
    simp
  | cons esi rest ih =>
    intro f b hinv hmem
    have hbS : b.symbol_length = S := hinv.2.1
    have hstep := Inv_step hS hlen hinv (hmem esi (by simp))
    have hrest : ∀ e ∈ rest, e * S < L := fun e he => hmem e (by simp [he])
    have hgoal : deliverList b original (esi :: rest)
        = deliverList (placeOk b esi (symbolOf original S esi)) original rest := by
      rw [deliverList, List.foldl_cons, hbS, deliverList]
    rw [hgoal]
    refine Inv_congr (fun e => ?_) (ih _ _ hstep hrest)
    by_cases he : e = esi
    · simp [he]
    · by_cases hr : e ∈ rest <;> simp [he, hr]

/-- C1: for every total_length `L > 0` and symbol_length `S > 0`, delivering
all `ceil(L/S)` encoding symbols of an object in any permutation of ESI order
yields a reconstructed buffer byte-identical to the original object, and
`is_complete` becomes true exactly at (and not before) the arrival of the last
symbol: it is false after every proper prefix of the permutation.  The spec's
concrete scenario (L=1000, S=250, ESI order {2,0,3,1}) is the witness
instance. -/
theorem c1_deliver_all_permutation_reconstructs
    (L S : Nat) (hL : 0 < L) (hS : 0 < S)
    (original : List Nat) (hlen : original.length = L)
    (esis : List Nat) (hperm : esis.Perm (List.range (numSymbols L S))) :
    finalize (deliverList (openBuffer L S) original esis) = original
    ∧ is_complete (deliverList (openBuffer L S) original esis) = true
    ∧ (∀ pre suf, esis = pre ++ suf → suf ≠ [] →
        is_complete (deliverList (openBuffer L S) original pre) = false) := by
  have hmem : ∀ e, e ∈ esis ↔ e * S < L := by
    intro e
    rw [hperm.mem_iff, List.mem_range, lt_numSymbols_iff hS]
  obtain ⟨hbL, hbS, hcov, hdata⟩ :=
    Inv_deliverList hS hlen esis _ _ (Inv_open L S original)
      (fun e he => (hmem e).mp he)
  refine ⟨?_, ?_, ?_⟩
  · apply List.ext_getElem
    · simp [finalize, hbL, hlen]
    · intro i h1 h2
      simp only [finalize, List.getElem_map, List.getElem_range]
      rw [hdata]
      have hiL : i < L := by rw [← hlen]; exact h2
      have hm : i / S ∈ esis :=
        (hmem _).mpr (Nat.lt_of_le_of_lt (Nat.div_mul_le_self i S) hiL)
      rw [if_pos ⟨hiL, by simp [hm]⟩]
      exact List.getD_eq_getElem original 0 h2
  · rw [is_complete, List.all_eq_true]
    intro x hx
    rw [List.mem_range, hbL] at hx
    rw [hcov]
    have hm : x / S ∈ esis :=
      (hmem _).mpr (Nat.lt_of_le_of_lt (Nat.div_mul_le_self x S) hx)
    simp [hx, hm]
  · intro pre suf heq hsuf
    have hlen_esis : esis.length = numSymbols L S := by
      rw [hperm.length_eq, List.length_range]
    have hsufpos : 0 < suf.length := List.length_pos.mpr hsuf
    have hpre_lt : pre.length < numSymbols L S := by
      have hlsum := congrArg List.length heq
      rw [List.length_append] at hlsum
      omega
    have hpre_sub : ∀ e ∈ pre, e * S < L := by
      intro e he
      refine (hmem e).mp ?_
      rw [heq]
      exact List.mem_append_left _ he
    obtain ⟨e0, he0n, he0pre⟩ : ∃ e0, e0 < numSymbols L S ∧ e0 ∉ pre := by
      by_contra hc
      push_neg at hc
      have hsub : Finset.range (numSymbols L S) ⊆ pre.toFinset := by
        intro x hx
        rw [Finset.mem_range] at hx
        rw [List.mem_toFinset]
        exact hc x hx
      have h1 := Finset.card_le_card hsub
      rw [Finset.card_range] at h1
      have h2 := List.toFinset_card_le pre
      omega
    obtain ⟨hpL, hpS, hpcov, hpdata⟩ :=
      Inv_deliverList hS hlen pre _ _ (Inv_open L S original) hpre_sub
    rw [is_complete, Bool.eq_false_iff]
    intro hall
    rw [List.all_eq_true] at hall
    have hi0L : e0 * S < L := (lt_numSymbols_iff hS e0).mp he0n
    have hx := hall (e0 * S) (by rw [List.mem_range, hpL]; exact hi0L)
    rw [hpcov, Nat.mul_div_cancel e0 hS] at hx
    simp [he0pre, hi0L] at hx

/-- Witness for C1: the spec's concrete scenario, total_length 1000,
symbol_length 250, delivery order ESI {2,0,3,1}. -/
theorem c1_witness_concrete_scenario :
    finalize (deliverList (openBuffer 1000 250)
        ((List.range 1000).map (· % 256)) [2, 0, 3, 1])
      = (List.range 1000).map (· % 256)
    ∧ is_complete (deliverList (openBuffer 1000 250)
        ((List.range 1000).map (· % 256)) [2, 0, 3, 1]) = true
    ∧ (∀ pre suf, [2, 0, 3, 1] = pre ++ suf → suf ≠ [] →
        is_complete (deliverList (openBuffer 1000 250)
          ((List.range 1000).map (· % 256)) pre) = false) :=
  c1_deliver_all_permutation_reconstructs 1000 250 (by decide) (by decide)
    ((List.range 1000).map (· % 256)) (by simp) [2, 0, 3, 1] (by decide)

/-- C2: `place_symbol` writes the symbol at byte offset `esi * symbol_length`,
clamping the written extent to `total_length` for the final (possibly short)
symbol, and marks exactly the clamped region as covered; bytes outside the
region are untouched.  The second pair of conjuncts is the spec's concrete
scenario: total_length 260, symbol_length 100, placing ESI 2 first covers
exactly `[200, 260)` and never touches `[260, 300)`. -/
theorem c2_place_symbol_offset_clamped (L S esi : Nat) (bytes : List Nat) (i : Nat) :
    (((placeOk (openBuffer L S) esi bytes).covered i
        = decide (esi * S ≤ i ∧ i < esi * S + min bytes.length (L - esi * S)))
      ∧ ((placeOk (openBuffer L S) esi bytes).data i
        = if esi * S ≤ i ∧ i < esi * S + min bytes.length (L - esi * S)
          then bytes.getD (i - esi * S) 0 else 0))
    ∧ ((placeOk (openBuffer 260 100) 2 (List.replicate 100 7)).covered i
        = decide (200 ≤ i ∧ i < 260))
    ∧ ((placeOk (openBuffer 260 100) 2 (List.replicate 100 7)).data i
        = if 200 ≤ i ∧ i < 260 then 7 else 0) := by
  refine ⟨placeOk_openBuffer L S esi bytes i, ?_, ?_⟩
  · have h := (placeOk_openBuffer 260 100 2 (List.replicate 100 7) i).1
    rw [h]
    norm_num
  · have h := (placeOk_openBuffer 260 100 2 (List.replicate 100 7) i).2
    rw [h]
    have hmin : min (List.replicate 100 (7 : Nat)).length (260 - 2 * 100) = 60 := by
      norm_num
    rw [hmin]
    by_cases hi : 200 ≤ i ∧ i < 260
    · rw [if_pos (by omega), if_pos hi]
      rw [List.getD_eq_getElem?_getD, List.getElem?_replicate, if_pos (by omega)]
      rfl
    · rw [if_neg (by omega), if_neg hi]

/-- C3: placement is idempotent — once a symbol has been delivered, delivering
the same ESI with byte-identical content any number of times (including after
coverage is satisfied) leaves the buffer, and hence the reconstructed output,
unchanged and raises no error. -/
theorem c3_place_symbol_idempotent {b b' : ReconBuffer} {esi : Nat}
    {bytes : List Nat} (h : deliverSymbol b esi bytes = (b', none)) :
    ∀ n, deliverRepeat b' esi bytes n = b'
      ∧ (deliverSymbol (deliverRepeat b' esi bytes n) esi bytes).2 = none
      ∧ finalize (deliverRepeat b' esi bytes n) = finalize b' := by
  have hfix := deliver_ok_fixpoint h
  have key : ∀ n, deliverRepeat b' esi bytes n = b' := by
    intro n
    induction n with
    | zero => rfl
    | succ n ih =>
      show (deliverSymbol (deliverRepeat b' esi bytes n) esi bytes).1 = b'
      rw [ih, hfix]
  intro n
  exact ⟨key n, by rw [key n, hfix], by rw [key n]⟩

/-- Witness for C3: a 4-byte object with 2-byte symbols; re-delivering ESI 0
three more times is a no-op with no error. -/
theorem c3_witness_concrete :
    deliverRepeat (placeOk (openBuffer 4 2) 0 [5, 6]) 0 [5, 6] 3
        = placeOk (openBuffer 4 2) 0 [5, 6]
    ∧ (deliverSymbol (deliverRepeat (placeOk (openBuffer 4 2) 0 [5, 6]) 0 [5, 6] 3)
        0 [5, 6]).2 = none
    ∧ finalize (deliverRepeat (placeOk (openBuffer 4 2) 0 [5, 6]) 0 [5, 6] 3)
        = finalize (placeOk (openBuffer 4 2) 0 [5, 6]) :=
  @c3_place_symbol_idempotent (openBuffer 4 2) (placeOk (openBuffer 4 2) 0 [5, 6])
    0 [5, 6] rfl 3

/-- C4: delivering a symbol at an already-seen ESI with different bytes raises
`InconsistentSymbol`, the buffer retains the first-seen bytes (the
reconstructed output is unchanged by the divergent delivery), and processing
continues — `deliverSymbol` returns the retained buffer rather than
aborting. -/
theorem c4_inconsistent_symbol_first_seen_wins {b b' : ReconBuffer} {esi : Nat}
    {bytes bytes2 : List Nat}
    (hfit : esi * b.symbol_length + bytes.length ≤ b.total_length)
    (hlen : bytes2.length = bytes.length)
    (hne : bytes2 ≠ bytes)
    (h : deliverSymbol b esi bytes = (b', none)) :
    deliverSymbol b' esi bytes2 = (b', some RxError.InconsistentSymbol)
    ∧ finalize (deliverSymbol b' esi bytes2).1 = finalize b' := by
  obtain ⟨hL, hS, hcov, hdata⟩ := deliver_ok_state h
  have hext : min bytes.length (b.total_length - esi * b.symbol_length)
      = bytes.length := Nat.min_eq_left (by omega)
  have hext2 : min bytes2.length (b'.total_length - esi * b'.symbol_length)
      = bytes.length := by
    rw [hL, hS, hlen]
    exact Nat.min_eq_left (by omega)
  have h1 : sliceCovered b' (esi * b'.symbol_length)
      (min bytes2.length (b'.total_length - esi * b'.symbol_length)) = true := by
    rw [hext2, hS]
    rw [hext] at hcov
    exact hcov
  have hdata' : sliceData b' (esi * b'.symbol_length)
      (min bytes2.length (b'.total_length - esi * b'.symbol_length)) = bytes := by
    rw [hext2, hS]
    rw [hext] at hdata
    rw [hdata]
    exact List.take_length bytes
  have h2 : sliceData b' (esi * b'.symbol_length)
      (min bytes2.length (b'.total_length - esi * b'.symbol_length))
      ≠ bytes2.take (min bytes2.length (b'.total_length - esi * b'.symbol_length)) := by
    rw [hdata', hext2, ← hlen, List.take_length]
    exact fun hc => hne hc.symm
  have hds := deliverSymbol_covered_ne h1 h2
  exact ⟨hds, by rw [hds]⟩

/-- Witness for C4: after delivering `[5, 6]` at ESI 0, delivering `[7, 8]` at
ESI 0 raises `InconsistentSymbol` and the output keeps the first-seen
bytes. -/
theorem c4_witness_concrete :
    deliverSymbol (placeOk (openBuffer 4 2) 0 [5, 6]) 0 [7, 8]
        = (placeOk (openBuffer 4 2) 0 [5, 6], some RxError.InconsistentSymbol)
    ∧ finalize (deliverSymbol (placeOk (openBuffer 4 2) 0 [5, 6]) 0 [7, 8]).1
        = finalize (placeOk (openBuffer 4 2) 0 [5, 6]) :=
  @c4_inconsistent_symbol_first_seen_wins (openBuffer 4 2)
    (placeOk (openBuffer 4 2) 0 [5, 6]) 0 [5, 6] [7, 8]
    (by decide) rfl (by decide) rfl

/-- The interpreter can only fail with `UnsupportedExtension`, and only on a
known extension type (EXT_FTI) whose internal layout has the wrong size. -/
lemma interpretExt_error_char {te : Nat × List Nat} {e : RxError}
    (h : interpretExt te = .error e) :
    e = RxError.UnsupportedExtension ∧ te.1 = EXT_FTI ∧ te.2.length ≠ 14 := by
  by_cases h1 : te.1 = EXT_FDT
  · simp [interpretExt, h1] at h
  · by_cases h2 : te.1 = EXT_FTI
    · by_cases h3 : te.2.length = 14
      · simp [interpretExt, EXT_FDT, EXT_FTI, h1, h2, h3] at h
      · simp [interpretExt, EXT_FDT, EXT_FTI, h1, h2, h3] at h
        exact ⟨h.symm, h2, h3⟩
    · simp [interpretExt, h1, h2] at h

/-- Interpreting a delimited extension list never produces `MalformedHeader`. -/
lemma interpretExts_no_malformed (raws : List (Nat × List Nat)) :
    interpretExts raws ≠ .error RxError.MalformedHeader := by
  induction raws with
  | nil => simp [interpretExts]
  | cons te tes ih =>
    simp only [interpretExts]
    cases hte : interpretExt te with
    | error e =>
      obtain ⟨he, -, -⟩ := interpretExt_error_char hte
      subst he
      simp
    | ok e =>
      cases hrest : interpretExts tes with
      | error er =>
        intro hc
        simp only [Except.error.injEq] at hc
        exact ih (by rw [hrest, hc])
      | ok es => simp

lemma structurallyValid_false_iff (pkt : List Nat) :
    structurallyValid pkt = false ↔ ¬ StructOk pkt := by
  have hiff : structurallyValid pkt = true ↔ StructOk pkt := by
    simp only [structurallyValid, StructOk, Bool.and_eq_true, decide_eq_true_eq,
      and_assoc]
  constructor
  · intro hfalse hok
    rw [hiff.mpr hok] at hfalse
    exact Bool.noConfusion hfalse
  · intro hnok
    rw [Bool.eq_false_iff]
    exact fun ht => hnok (hiff.mp ht)

lemma lct_decode_malformed_iff (pkt : List Nat) :
    lct_decode pkt = .error RxError.MalformedHeader ↔ ¬ StructOk pkt := by
  rw [lct_decode]
  split_ifs with hA hB hC hD hE
  · exact iff_of_true rfl (fun hc => absurd hc.1 (by omega))
  · exact iff_of_true rfl (fun hc => hB hc.2.1)
  · exact iff_of_true rfl (fun hc => hC hc.2.2.1)
  · exact iff_of_true rfl (fun hc => absurd hc.2.2.2.1 (by omega))
  · exact iff_of_true rfl (fun hc => absurd hc.2.2.2.2.1 (by omega))
  · cases hsplit : splitExts ((pkt.drop 12).take (4 * pkt.getD 2 0 - 12)) with
    | none =>
      refine iff_of_true rfl (fun hc => ?_)
      have := hc.2.2.2.2.2
      rw [hsplit] at this
      simp at this
    | some raws =>
      have hok : StructOk pkt :=
        ⟨by omega, not_not.mp hB, not_not.mp hC, by omega, by omega,
         by rw [hsplit]; rfl⟩
      refine iff_of_false ?_ (fun hnc => hnc hok)
      cases hint : interpretExts raws with
      | error e =>
        have hne : e ≠ RxError.MalformedHeader := by
          intro hc
          exact interpretExts_no_malformed raws (by rw [hint, hc])
        dsimp only
        rw [hint]
        simp [hne]
      | ok es =>
        dsimp only
        rw [hint]
        simp

/-- C5: the LCT Header Decoder fails with `MalformedHeader` if and only if a
structural field of the raw packet is inconsistent (minimum length, version,
reserved bits, declared header length vs. packet length, extension list
overrun); the parse is a pure function of the packet bytes.  An unknown
extension type code is never a failure — it is skipped by its declared length
and recorded as `unknown` — and `UnsupportedExtension` arises only for a known
type (EXT_FTI) whose internal layout size is wrong. -/
theorem c5_malformed_iff_structurally_invalid :
    (∀ pkt, lct_decode pkt = .error RxError.MalformedHeader
        ↔ structurallyValid pkt = false)
    ∧ (∀ het raw, het ≠ EXT_FTI → het ≠ EXT_FDT →
        interpretExt (het, raw) = .ok (ExtHeader.unknown het raw))
    ∧ (∀ te e, interpretExt te = .error e →
        e = RxError.UnsupportedExtension ∧ te.1 = EXT_FTI ∧ te.2.length ≠ 14) := by
  refine ⟨?_, ?_, fun te e h => interpretExt_error_char h⟩
  · intro pkt
    rw [lct_decode_malformed_iff, structurallyValid_false_iff]
  · intro het raw hfti hfdt
    simp [interpretExt, hfti, hfdt]

/-- Witness for C5: the empty packet is structurally invalid and decodes to
`MalformedHeader`; type code 99 is unknown and interprets without error. -/
theorem c5_witness_concrete :
    (lct_decode [] = .error RxError.MalformedHeader
      ↔ structurallyValid [] = false)
    ∧ interpretExt (99, [0, 0, 0]) = .ok (ExtHeader.unknown 99 [0, 0, 0]) :=
  ⟨c5_malformed_iff_structurally_invalid.1 [],
   c5_malformed_iff_structurally_invalid.2.1 99 [0, 0, 0] (by decide) (by decide)⟩

/-- C6: when an EXT_FTI extension is present its exact transfer length wins
the resolution, and the Object Reconstructor sizes its buffer to exactly that
byte count — never a symbol-count approximation (`ceil(L/S) * S`); the EXT_FTI
transfer length is decoded full-width from all six bytes of the field, and
when EXT_FTI is absent the length falls back to the FDT File Entry content
length. -/
theorem c6_exact_fti_length_sizing :
    (∀ (exts : List ExtHeader) (fdtLen : Option Nat) (tl S : Nat),
        extTransferLength exts = some tl →
        resolveLength exts fdtLen = some tl
        ∧ (openBuffer tl S).total_length = tl
        ∧ (finalize (openBuffer tl S)).length = tl)
    ∧ (∀ (exts : List ExtHeader) (fdtLen : Option Nat),
        extTransferLength exts = none → resolveLength exts fdtLen = fdtLen)
    ∧ (∀ raw : List Nat, raw.length = 14 →
        interpretExt (EXT_FTI, raw) = .ok (ExtHeader.fti (be (raw.take 6))
          (be ((raw.drop 8).take 2)) (be ((raw.drop 10).take 4))))
    ∧ ((openBuffer 260 100).total_length = 260
        ∧ numSymbols 260 100 * 100 = 300
        ∧ (openBuffer 260 100).total_length ≠ numSymbols 260 100 * 100) := by
  refine ⟨?_, ?_, ?_, by decide, by decide, by decide⟩
  · intro exts fdtLen tl S h
    refine ⟨by simp [resolveLength, h], rfl, by simp [finalize, openBuffer]⟩
  · intro exts fdtLen h
    simp [resolveLength, h]
  · intro raw hraw
    simp [interpretExt, EXT_FDT, EXT_FTI, hraw]

/-- Witness for C6: an extension list carrying EXT_FTI with transfer length
260 resolves to 260 and sizes the buffer to 260 bytes; without EXT_FTI the
FDT entry length 999 is used; a 14-byte raw EXT_FTI decodes full-width. -/
theorem c6_witness_concrete :
    (resolveLength [ExtHeader.fti 260 100 5] (some 999) = some 260
      ∧ (openBuffer 260 100).total_length = 260
      ∧ (finalize (openBuffer 260 100)).length = 260)
    ∧ resolveLength [ExtHeader.fdt 7] (some 999) = some 999
    ∧ interpretExt (EXT_FTI, List.range 14)
        = .ok (ExtHeader.fti (be ((List.range 14).take 6))
            (be (((List.range 14).drop 8).take 2))
            (be (((List.range 14).drop 10).take 4))) :=
  ⟨c6_exact_fti_length_sizing.1 [ExtHeader.fti 260 100 5] (some 999) 260 100 rfl,
   c6_exact_fti_length_sizing.2.1 [ExtHeader.fdt 7] (some 999) rfl,
   c6_exact_fti_length_sizing.2.2.1 (List.range 14) (by decide)⟩

/-- The terminal `TimedOut` state is absorbing: no later event changes the state or emits. -/
lemma runTOI_timedOut (bound : Nat) (evs : List RxEvent) :
    runTOI bound TOIState.timedOut evs = (TOIState.timedOut, 0) := by
  induction evs with
  | nil => rfl
  | cons ev evs ih =>
    simp [runTOI, stepTOI, ih]

/-- C7: a partially covered object whose last-activity timestamp exceeds the
inactivity bound transitions to the terminal `TimedOut` state (which holds no
buffer — all buffers freed) without emitting, and no later event for that TOI
ever produces a completed-object emission: the total emission count over any
continuation is zero. -/
theorem c7_timeout_terminal_never_emitted {bound now la : Nat}
    {buf : ReconBuffer} (hpart : is_complete buf = false)
    (hexp : la + bound < now) :
    ∀ evs : List RxEvent,
      stepTOI bound (TOIState.assembling buf la) (RxEvent.checkTimeout now)
        = (TOIState.timedOut, false)
      ∧ runTOI bound (TOIState.assembling buf la)
          (RxEvent.checkTimeout now :: evs) = (TOIState.timedOut, 0) := by
  have hstep : stepTOI bound (TOIState.assembling buf la)
      (RxEvent.checkTimeout now) = (TOIState.timedOut, false) := by
    simp [stepTOI, hexp, hpart]
  intro evs
  refine ⟨hstep, ?_⟩
  simp only [runTOI, hstep]
  rw [runTOI_timedOut]
  simp

/-- Witness for C7: a half-filled 4-byte object (ESI 0 of 2 delivered), bound
5, last activity 0, check at time 6, followed by a late symbol and another
check: the object times out and is never emitted. -/
theorem c7_witness_concrete :
    stepTOI 5 (TOIState.assembling (placeOk (openBuffer 4 2) 0 [5, 6]) 0)
        (RxEvent.checkTimeout 6) = (TOIState.timedOut, false)
    ∧ runTOI 5 (TOIState.assembling (placeOk (openBuffer 4 2) 0 [5, 6]) 0)
        (RxEvent.checkTimeout 6
          :: [RxEvent.symbol 1 [7, 8] 7, RxEvent.checkTimeout 100])
        = (TOIState.timedOut, 0) :=
  c7_timeout_terminal_never_emitted (by rfl) (by decide)
    [RxEvent.symbol 1 [7, 8] 7, RxEvent.checkTimeout 100]

end Flute

namespace SDLOut

lemma two_pow_32_eq : (2 : Nat) ^ 32 = 4294967296 := by norm_num

lemma countInits_nil : countInits [] = 0 := rfl

lemma countCloses_nil : countCloses [] = 0 := rfl

lemma countInits_start (ok : Bool) (cs : List SDLCall) :
    countInits (SDLCall.start ok :: cs) = countInits cs + 1 := by
  simp [countInits, List.countP_cons]

lemma countInits_close (cs : List SDLCall) :
    countInits (SDLCall.close :: cs) = countInits cs := by
  simp [countInits, List.countP_cons]

lemma countCloses_start (ok : Bool) (cs : List SDLCall) :
    countCloses (SDLCall.start ok :: cs) = countCloses cs := by
  simp [countCloses, List.countP_cons]

lemma countCloses_close (cs : List SDLCall) :
    countCloses (SDLCall.close :: cs) = countCloses cs + 1 := by
  simp [countCloses, List.countP_cons]

/-- State after any paired, all-successful call sequence: `num_users` is the
running balance and `is_init` records whether any init has happened. -/
lemma runSDL_characterization :
    ∀ (calls : List SDLCall) (s : SDLState),
      SDLCall.start false ∉ calls →
      closesLeInits calls s.num_users = true →
      s.num_users + countInits calls < 2 ^ 32 →
      (s.is_init = false → s.num_users = 0) →
      (runSDL s calls).1.num_users
          = s.num_users + countInits calls - countCloses calls
      ∧ (runSDL s calls).1.is_init
          = (s.is_init || decide (0 < countInits calls)) := by
  intro calls
  induction calls with
  | nil =>
    intro s _ _ _ _
    simp [runSDL, countInits_nil, countCloses_nil]
  | cons c cs ih =>
    intro s hnotin hpair hbound hgood
    obtain ⟨si, n⟩ := s
    dsimp only at hpair hbound hgood ⊢
    cases c with
    | start ok =>
      have hok : ok = true := by
        cases ok
        · exact absurd (List.mem_cons_self _ _) hnotin
        · rfl
      subst hok
      have hnotin' : SDLCall.start false ∉ cs :=
        fun hmem => hnotin (List.mem_cons_of_mem _ hmem)
      rw [countInits_start, two_pow_32_eq] at hbound
      have hlt : n + 1 < 4294967296 := by omega
      have hmod : (n + 1) % 4294967296 = n + 1 := Nat.mod_eq_of_lt hlt
      have hstate : (SDLOUT_InitSDL ⟨si, n⟩ true).state
          = ⟨true, n + 1⟩ := by
        cases si <;> simp [SDLOUT_InitSDL, hmod]
      have hpair' : closesLeInits cs (n + 1) = true := by
        simpa [closesLeInits] using hpair
      have ihres := ih ⟨true, n + 1⟩ hnotin' hpair'
        (by show n + 1 + countInits cs < 2 ^ 32; rw [two_pow_32_eq]; omega)
        (fun h => Bool.noConfusion h)
      rw [countInits_start, countCloses_start]
      constructor
      · show (runSDL (SDLOUT_InitSDL ⟨si, n⟩ true).state cs).1.num_users = _
        rw [hstate, ihres.1]
        dsimp only
        omega
      · show (runSDL (SDLOUT_InitSDL ⟨si, n⟩ true).state cs).1.is_init = _
        rw [hstate, ihres.2]
        simp
    | close =>
      have hnotin' : SDLCall.start false ∉ cs :=
        fun hmem => hnotin (List.mem_cons_of_mem _ hmem)
      cases si with
      | false =>
        have h0 : n = 0 := hgood rfl
        subst h0
        simp [closesLeInits] at hpair
      | true =>
        have hn : n ≠ 0 := by
          intro h0
          subst h0
          simp [closesLeInits] at hpair
        have hpair' : closesLeInits cs (n - 1) = true := by
          simpa [closesLeInits, hn] using hpair
        rw [countInits_close, two_pow_32_eq] at hbound
        have hnlt : n < 4294967296 := by omega
        have hdec : (n + 4294967295) % 4294967296 = n - 1 := by
          omega
        have hstate : (SDLOUT_CloseSDL ⟨true, n⟩).state = ⟨true, n - 1⟩ := by
          simp [SDLOUT_CloseSDL, hdec]
        have ihres := ih ⟨true, n - 1⟩ hnotin' hpair'
          (by show n - 1 + countInits cs < 2 ^ 32; rw [two_pow_32_eq]; omega)
          (fun h => Bool.noConfusion h)
        rw [countInits_close, countCloses_close]
        constructor
        · show (runSDL (SDLOUT_CloseSDL ⟨true, n⟩).state cs).1.num_users = _
          rw [hstate, ihres.1]
          dsimp only
          omega
        · show (runSDL (SDLOUT_CloseSDL ⟨true, n⟩).state cs).1.is_init = _
          rw [hstate, ihres.2]

/-- Appending a final close to a paired sequence forces a strictly positive
balance before it. -/
lemma closesLeInits_snoc_close :
    ∀ (xs : List SDLCall) (n : Nat),
      closesLeInits (xs ++ [SDLCall.close]) n = true →
      closesLeInits xs n = true ∧ countCloses xs + 1 ≤ n + countInits xs := by
  intro xs
  induction xs with
  | nil =>
    intro n h
    simp only [List.nil_append, closesLeInits] at h
    by_cases hn : n = 0
    · rw [if_pos hn] at h
      exact Bool.noConfusion h
    · rw [countCloses_nil, countInits_nil]
      exact ⟨rfl, by omega⟩
  | cons c cs ih =>
    intro n h
    rw [List.cons_append] at h
    cases c with
    | start ok =>
      rw [show closesLeInits (SDLCall.start ok :: (cs ++ [SDLCall.close])) n
          = closesLeInits (cs ++ [SDLCall.close]) (n + 1) from rfl] at h
      obtain ⟨h1, h2⟩ := ih (n + 1) h
      refine ⟨h1, ?_⟩
      rw [countCloses_start, countInits_start]
      omega
    | close =>
      rw [show closesLeInits (SDLCall.close :: (cs ++ [SDLCall.close])) n
          = if n = 0 then false else closesLeInits (cs ++ [SDLCall.close]) (n - 1)
          from rfl] at h
      by_cases hn : n = 0
      · rw [if_pos hn] at h
        exact Bool.noConfusion h
      · rw [if_neg hn] at h
        obtain ⟨h1, h2⟩ := ih (n - 1) h
        constructor
        · rw [show closesLeInits (SDLCall.close :: cs) n
              = if n = 0 then false else closesLeInits cs (n - 1) from rfl,
            if_neg hn]
          exact h1
        · rw [countCloses_close, countInits_close]
          omega

/-- C8: the SDL module's init reference count is consistent —
`SDLOUT_InitSDL` invokes `SDL_Init` only when `is_init` is false and
increments `num_users` on every successful call; `SDLOUT_CloseSDL` is a no-op
when `is_init` is false, otherwise decrements `num_users` and invokes
`SDL_Quit` exactly when the count reaches zero; hence over any paired
Init/Close sequence (all `SDL_Init` calls succeeding), `num_users` equals
inits minus closes and `SDL_Quit` is invoked precisely by the last user's
close. -/
theorem c8_sdl_refcount_consistent :
    (∀ (s : SDLState) (ok : Bool),
        (SDLOUT_InitSDL s ok).calledSDLInit = !s.is_init)
    ∧ (∀ (s : SDLState) (ok : Bool), (SDLOUT_InitSDL s ok).result = true →
        (SDLOUT_InitSDL s ok).state.num_users = (s.num_users + 1) % 2 ^ 32)
    ∧ (∀ s : SDLState, s.is_init = false →
        SDLOUT_CloseSDL s = { state := s, calledSDLQuit := false })
    ∧ (∀ s : SDLState, s.is_init = true → 1 ≤ s.num_users →
        s.num_users < 2 ^ 32 →
        (SDLOUT_CloseSDL s).state.num_users = s.num_users - 1
        ∧ ((SDLOUT_CloseSDL s).calledSDLQuit = true ↔ s.num_users = 1))
    ∧ (∀ calls : List SDLCall, SDLCall.start false ∉ calls →
        closesLeInits calls 0 = true → countInits calls < 2 ^ 32 →
        (runSDL initialState calls).1.num_users
            = countInits calls - countCloses calls
        ∧ (runSDL initialState calls).1.is_init
            = decide (0 < countInits calls))
    ∧ (∀ pre : List SDLCall, SDLCall.start false ∉ pre →
        closesLeInits (pre ++ [SDLCall.close]) 0 = true →
        countInits pre < 2 ^ 32 →
        ((SDLOUT_CloseSDL (runSDL initialState pre).1).calledSDLQuit = true
          ↔ countInits pre = countCloses pre + 1)) := by
  refine ⟨?_, ?_, ?_, ?_, ?_, ?_⟩
  · intro s ok
    obtain ⟨si, n⟩ := s
    cases si <;> cases ok <;> simp [SDLOUT_InitSDL]
  · intro s ok h
    obtain ⟨si, n⟩ := s
    cases si <;> cases ok <;> simp_all [SDLOUT_InitSDL]
  · intro s h
    simp [SDLOUT_CloseSDL, h]
  · intro s h h1 h2
    have hdec : (s.num_users + 4294967295) % 4294967296 = s.num_users - 1 := by
      rw [two_pow_32_eq] at h2
      omega
    refine ⟨by simp [SDLOUT_CloseSDL, h, hdec], ?_⟩
    simp only [SDLOUT_CloseSDL, h, Bool.not_true, if_false, Bool.false_eq_true,
      ite_false, hdec, beq_iff_eq]
    omega
  · intro calls hnotin hpair hbound
    have := runSDL_characterization calls initialState hnotin hpair
      (by simpa [initialState] using hbound) (fun _ => rfl)
    simpa [initialState] using this
  · intro pre hnotin hp hbound
    obtain ⟨hpre, hbal⟩ := closesLeInits_snoc_close pre 0 hp
    obtain ⟨hnum, hinit⟩ := runSDL_characterization pre initialState hnotin
      (by simpa [initialState] using hpre)
      (by simpa [initialState] using hbound) (fun _ => rfl)
    have hci : 0 < countInits pre := by omega
    have hinit2 : (runSDL initialState pre).1.is_init = true := by
      rw [hinit]
      simp [initialState, hci]
    have hnum2 : (runSDL initialState pre).1.num_users
        = countInits pre - countCloses pre := by
      simpa [initialState] using hnum
    have hlt : countInits pre - countCloses pre < 2 ^ 32 := by omega
    have hdec : (countInits pre - countCloses pre + (2 ^ 32 - 1)) % 2 ^ 32
        = countInits pre - countCloses pre - 1 := by
      rw [two_pow_32_eq] at hlt ⊢
      omega
    simp only [SDLOUT_CloseSDL, hinit2, Bool.not_true, Bool.false_eq_true,
      if_false, ite_false, hnum2, hdec, beq_iff_eq]
    omega

/-- Witness for C8: two paired inits then one close leave `num_users = 1`; a
single init followed by a close quits exactly as the last user. -/
theorem c8_witness_concrete :
    ((runSDL initialState
        [SDLCall.start true, SDLCall.start true, SDLCall.close]).1.num_users
      = countInits [SDLCall.start true, SDLCall.start true, SDLCall.close]
        - countCloses [SDLCall.start true, SDLCall.start true, SDLCall.close]
      ∧ (runSDL initialState
          [SDLCall.start true, SDLCall.start true, SDLCall.close]).1.is_init
        = decide (0 < countInits
            [SDLCall.start true, SDLCall.start true, SDLCall.close]))
    ∧ ((SDLOUT_CloseSDL (runSDL initialState [SDLCall.start true]).1).calledSDLQuit
          = true
        ↔ countInits [SDLCall.start true]
          = countCloses [SDLCall.start true] + 1) :=
  ⟨c8_sdl_refcount_consistent.2.2.2.2.1
      [SDLCall.start true, SDLCall.start true, SDLCall.close]
      (by decide) (by decide) (by decide),
   c8_sdl_refcount_consistent.2.2.2.2.2 [SDLCall.start true]
      (by decide) (by decide) (by decide)⟩

/-- C9: `SDLOUT_CloseSDL` never resets `is_init`; once an init has succeeded,
every later `SDLOUT_InitSDL` returns `GF_TRUE` and increments `num_users`
without invoking `SDL_Init` again — even after `num_users` has returned to
zero and `SDL_Quit` has been called, as the concrete sequence
init-close-init shows. -/
theorem c9_close_never_resets_is_init :
    (∀ s : SDLState, (SDLOUT_CloseSDL s).state.is_init = s.is_init)
    ∧ (∀ (s : SDLState) (ok : Bool), s.is_init = true →
        SDLOUT_InitSDL s ok
          = { state := { is_init := true,
                         num_users := (s.num_users + 1) % 2 ^ 32 },
              result := true, calledSDLInit := false })
    ∧ (∀ (calls : List SDLCall) (s : SDLState), s.is_init = true →
        (runSDL s calls).1.is_init = true)
    ∧ (runSDL initialState [SDLCall.start true, SDLCall.close]
        = ({ is_init := true, num_users := 0 }, 1)
      ∧ SDLOUT_InitSDL { is_init := true, num_users := 0 } true
        = { state := { is_init := true, num_users := 1 }, result := true,
            calledSDLInit := false }) := by
  have hclose : ∀ s : SDLState, (SDLOUT_CloseSDL s).state.is_init = s.is_init := by
    intro s
    obtain ⟨si, n⟩ := s
    cases si <;> simp [SDLOUT_CloseSDL]
  have hinit : ∀ (s : SDLState) (ok : Bool), s.is_init = true →
      SDLOUT_InitSDL s ok
        = { state := { is_init := true,
                       num_users := (s.num_users + 1) % 2 ^ 32 },
            result := true, calledSDLInit := false } := by
    intro s ok h
    obtain ⟨si, n⟩ := s
    obtain rfl : si = true := h
    simp [SDLOUT_InitSDL]
  refine ⟨hclose, hinit, ?_, by decide, by decide⟩
  intro calls
  induction calls with
  | nil =>
    intro s h
    exact h
  | cons c cs ih =>
    intro s h
    cases c with
    | start ok =>
      show (runSDL (SDLOUT_InitSDL s ok).state cs).1.is_init = true
      apply ih
      rw [hinit s ok h]
    | close =>
      show (runSDL (SDLOUT_CloseSDL s).state cs).1.is_init = true
      apply ih
      rw [hclose s, h]

/-- Witness for C9: a state that was inited and fully closed (`is_init` still
true, zero users) re-inits without `SDL_Init` and stays inited across a
close. -/
theorem c9_witness_concrete :
    SDLOUT_InitSDL { is_init := true, num_users := 0 } true
      = { state := { is_init := true, num_users := 1 }, result := true,
          calledSDLInit := false }
    ∧ (runSDL { is_init := true, num_users := 0 } [SDLCall.close]).1.is_init
      = true := by
  refine ⟨?_, c9_close_never_resets_is_init.2.2.1 [SDLCall.close]
    { is_init := true, num_users := 0 } rfl⟩
  have h := c9_close_never_resets_is_init.2.1
    { is_init := true, num_users := 0 } true rfl
  rw [h]
  norm_num

end SDLOut

namespace HWEnc

/-- C10: on every path of `hw_ffenc_process` that reaches the encoded-packet
receive loop, the value of `ret` at the `while (ret >= 0)` guard is still
uninitialized (no assignment to `ret` occurs before line 391), and whether the
loop body runs at all depends on the junk value the uninitialized read yields,
not on the function's inputs: a negative junk value skips the loop entirely
while a non-negative one processes the pending encoder output. -/
theorem c10_receive_loop_guard_reads_uninitialized_ret :
    (∀ (encoder_ready pck_avail eos data_ok sw_alloc_ok buf_ok transfer_ok
        send_ok : Bool) (r : Option Int),
        hw_ffenc_process_to_guard encoder_ready pck_avail eos data_ok
            sw_alloc_ok buf_ok transfer_ok send_ok
          = ProcOutcome.reachedLoop r → r = none)
    ∧ (∀ rs, receive_loop (-1) rs = [])
    ∧ receive_loop 0 [some [1]] = [[1]]
    ∧ receive_loop (-1) [some [1]] ≠ receive_loop 0 [some [1]] := by
  refine ⟨?_, ?_, rfl, by decide⟩
  · intro a b c d e f g h r hr
    simp only [hw_ffenc_process_to_guard] at hr
    split_ifs at hr <;> simp_all
  · intro rs
    cases rs with
    | nil => rfl
    | cons r rs => norm_num [receive_loop]

/-- Witness for C10: with every external call succeeding, the guard is reached
with `ret` uninitialized, and a junk value of `-1` silently drops the pending
encoder output. -/
theorem c10_witness_concrete :
    (none : Option Int) = none
    ∧ receive_loop (-1) [some [1], some [2]] = [] :=
  ⟨c10_receive_loop_guard_reads_uninitialized_ret.1 true true false true true
      true true true none rfl,
   c10_receive_loop_guard_reads_uninitialized_ret.2.1 [some [1], some [2]]⟩

end HWEnc
